import Mathlib

/-!
# Verification of the `fastnvmetrics` sampling engine

A shallow embedding of the core of `fastnvmetrics` (a three-tier telemetry
sampler writing a packed binary trace file) together with proofs of the
specification's claims about it.

Conventions of the embedding:
* C++ machine integers are `Nat` with explicit reduction `% 2^w` where the
  source can overflow (`uint64_t` arithmetic in the `/proc/stat` parser).
* `float`/`double` arithmetic is modelled exactly over `ℚ`; a float bit
  pattern stored in a packed struct is modelled as its `Nat` bit pattern.
* Byte buffers and C strings are `List Char` / `List Nat` (byte values).
* The concurrent engine is modelled both as sequential thread-body
  functions (with oracles for the values the thread reads from the shared
  atomics and from the monotonic clock) and as a small-step transition
  relation `Step` over `EngState`, whose guards come from the loop
  conditions in `engine.cpp`.
-/

namespace Fastnvmetrics

/-! ## Constants (fastnvmetrics.hpp) -/

def MAGIC : Nat := 0x4E564D54
def VERSION : Nat := 1
def MAX_CPU_CORES : Int := 16
def MAX_POWER_RAILS : Int := 8
def MAX_THERMAL_ZONES : Int := 16

/-! ## Board and engine configuration (fastnvmetrics.hpp) -/

structure PowerRailConfig where
  label : List Nat
  voltage_path : List Nat
  current_path : List Nat
deriving DecidableEq, Repr

structure ThermalZoneConfig where
  name : List Nat
  temp_path : List Nat
deriving DecidableEq, Repr

structure BoardConfig where
  board_name : List Nat
  num_cpu_cores : Int
  gpu_load_path : List Nat
  emc_actmon_path : List Nat
  power_rails : List PowerRailConfig
  thermal_zones : List ThermalZoneConfig
deriving DecidableEq, Repr

/-- `EngineConfig` (fastnvmetrics.hpp): three sampling frequencies in Hz. -/
structure EngineConfig where
  fast_hz : Nat := 1000
  medium_hz : Nat := 100
  slow_hz : Nat := 10
deriving DecidableEq, Repr

def defaultEngineConfig : EngineConfig := {}

/-- The data an `Engine` holds right after its constructor ran
(`output_path_`, `board_`, `config_` member initialisers). -/
structure EngineInit where
  output_path : List Nat
  board : BoardConfig
  config : EngineConfig
deriving DecidableEq, Repr

/-- `Engine::Engine` (engine.cpp:61-77): validate bounds, else store the
three arguments.  The constructor touches no file; the embedding is a pure
function of its three arguments. -/
def Engine.construct (output_path : List Nat) (board : BoardConfig)
    (config : EngineConfig) : Except (List Char) EngineInit :=
  if board.num_cpu_cores ≤ 0 ∨ MAX_CPU_CORES < board.num_cpu_cores then
    .error "num_cpu_cores out of range".data
  else if MAX_POWER_RAILS < (board.power_rails.length : Int) then
    .error "Too many power rails".data
  else if MAX_THERMAL_ZONES < (board.thermal_zones.length : Int) then
    .error "Too many thermal zones".data
  else
    .ok ⟨output_path, board, config⟩

/-- C7 — Engine construction fails iff `num_cpu_cores` is outside 1..16, or
more than 8 power rails, or more than 16 thermal zones; any configuration
within these bounds is accepted (and construction, being a pure function of
the arguments, performs no filesystem access). -/
theorem construct_ok_iff_bounds (o : List Nat) (b : BoardConfig)
    (c : EngineConfig) :
    (∃ e, Engine.construct o b c = .ok e) ↔
      (0 < b.num_cpu_cores ∧ b.num_cpu_cores ≤ 16 ∧
       b.power_rails.length ≤ 8 ∧ b.thermal_zones.length ≤ 16) := by
  unfold Engine.construct
  split
  · rename_i h
    simp only [MAX_CPU_CORES] at h
    constructor
    · rintro ⟨e, he⟩; cases he
    · rintro ⟨h1, h2, -, -⟩
      rcases h with h | h
      · exact absurd h1 (not_lt.mpr h)
      · exact absurd h2 (not_le.mpr h)
  · rename_i hcore
    push_neg at hcore
    simp only [MAX_CPU_CORES] at hcore
    split
    · rename_i h
      simp only [MAX_POWER_RAILS] at h
      constructor
      · rintro ⟨e, he⟩; cases he
      · rintro ⟨-, -, h3, -⟩
        have : (b.power_rails.length : Int) ≤ 8 := by exact_mod_cast h3
        exact absurd this (not_le.mpr h)
    · rename_i hrails
      push_neg at hrails
      simp only [MAX_POWER_RAILS] at hrails
      split
      · rename_i h
        simp only [MAX_THERMAL_ZONES] at h
        constructor
        · rintro ⟨e, he⟩; cases he
        · rintro ⟨-, -, -, h4⟩
          have : (b.thermal_zones.length : Int) ≤ 16 := by exact_mod_cast h4
          exact absurd this (not_le.mpr h)
      · rename_i hzones
        push_neg at hzones
        simp only [MAX_THERMAL_ZONES] at hzones
        constructor
        · intro _
          exact ⟨hcore.1, hcore.2, by exact_mod_cast hrails,
            by exact_mod_cast hzones⟩
        · intro _
          exact ⟨⟨o, b, c⟩, rfl⟩

/-- A concrete in-bounds board used by counterexamples and witnesses. -/
def testBoard : BoardConfig :=
  { board_name := [116, 101, 115, 116]
    num_cpu_cores := 4
    gpu_load_path := []
    emc_actmon_path := []
    power_rails := []
    thermal_zones := [] }

/-- C8 counterexample — an `Engine` constructed with `fast_hz = 0` is
accepted by the constructor, so not every successfully constructed engine
has all three frequencies `> 0`. -/
theorem construct_accepts_zero_frequency :
    Engine.construct [] testBoard ⟨0, 100, 10⟩ =
      .ok ⟨[], testBoard, ⟨0, 100, 10⟩⟩ ∧
    ¬ 0 < (EngineConfig.mk 0 100 10).fast_hz := by
  constructor
  · rfl
  · decide

/-- C8 (amended) — construction does not validate the sampling frequencies:
a successfully constructed `Engine` stores exactly the `EngineConfig` it was
given, and the default `EngineConfig` (1000/100/10) has all three
frequencies `> 0`. -/
theorem construct_preserves_config
    (o : List Nat) (b : BoardConfig) (c : EngineConfig) (e : EngineInit)
    (h : Engine.construct o b c = .ok e) :
    e.config = c ∧
      (0 < defaultEngineConfig.fast_hz ∧ 0 < defaultEngineConfig.medium_hz ∧
       0 < defaultEngineConfig.slow_hz) := by
  refine ⟨?_, by decide, by decide, by decide⟩
  unfold Engine.construct at h
  split at h
  · cases h
  · split at h
    · cases h
    · split at h
      · cases h
      · cases h; rfl

/-- Witness for `construct_preserves_config` at a concrete construction. -/
theorem construct_preserves_config_witness :
    (EngineInit.mk [] testBoard defaultEngineConfig).config =
        defaultEngineConfig ∧
      (0 < defaultEngineConfig.fast_hz ∧ 0 < defaultEngineConfig.medium_hz ∧
       0 < defaultEngineConfig.slow_hz) :=
  construct_preserves_config [] testBoard defaultEngineConfig _ rfl

/-! ## Byte-level encoding of the packed structs (fastnvmetrics.hpp §pack)

The on-disk format is little-endian and packed.  A `w`-byte scalar with
value `v` is encoded as its `w` little-endian bytes; a float field is
carried as its bit pattern (a `Nat`), which is enough to express the layout
claims bit-faithfully without modelling IEEE arithmetic. -/

def leBytes (w v : Nat) : List Nat :=
  (List.range w).map fun i => v / 256 ^ i % 256

@[simp] theorem leBytes_length (w v : Nat) : (leBytes w v).length = w := by
  simp [leBytes]

/-- A fixed-capacity `char` array filled by `strncpy(dst, src, cap - 1)`
from a zero-initialised struct: at most `cap - 1` bytes of the source, the
rest NUL. -/
def fixedBytes (cap : Nat) (s : List Nat) : List Nat :=
  s.take (cap - 1) ++ List.replicate (cap - min s.length (cap - 1)) 0

@[simp] theorem fixedBytes_length (cap : Nat) (s : List Nat) :
    (fixedBytes cap s).length = cap := by
  simp [fixedBytes]
  omega

theorem length_flatMap_const {α : Type} (f : α → List Nat) (n : Nat)
    (h : ∀ a, (f a).length = n) (l : List α) :
    (l.flatMap f).length = l.length * n := by
  induction l with
  | nil => simp
  | cons a t ih => simp [List.flatMap_cons, h a, ih, Nat.succ_mul]; omega

/-- A `slots × cap` table of NUL-padded names
(`power_rail_names` / `thermal_zone_names`). -/
def nameTable (slots cap : Nat) (names : List (List Nat)) : List Nat :=
  (List.range slots).flatMap fun i => fixedBytes cap (names.getD i [])

@[simp] theorem nameTable_length (slots cap : Nat) (names : List (List Nat)) :
    (nameTable slots cap names).length = slots * cap := by
  unfold nameTable
  rw [length_flatMap_const _ cap (fun a => fixedBytes_length _ _)]
  simp

/-- `FileHeader` (fastnvmetrics.hpp:34-61).  Scalar fields hold the stored
values; name fields hold the raw source strings (encoding truncates/pads). -/
structure FileHeader where
  magic : Nat
  version : Nat
  board_name : List Nat
  num_cpu_cores : Nat
  num_power_rails : Nat
  num_thermal_zones : Nat
  emc_available : Nat
  fast_hz : Nat
  medium_hz : Nat
  slow_hz : Nat
  num_fast_samples : Nat
  num_medium_samples : Nat
  num_slow_samples : Nat
  num_sync_points : Nat
  power_rail_names : List (List Nat)
  thermal_zone_names : List (List Nat)
deriving DecidableEq, Repr

/-- Byte image of a zero-initialised `FileHeader` after `Engine::write_file`
populated it (order and widths per the packed struct). -/
def encodeFileHeader (h : FileHeader) : List Nat :=
  leBytes 4 h.magic ++ leBytes 4 h.version ++
  fixedBytes 32 h.board_name ++
  leBytes 1 h.num_cpu_cores ++ leBytes 1 h.num_power_rails ++
  leBytes 1 h.num_thermal_zones ++ leBytes 1 h.emc_available ++
  leBytes 4 h.fast_hz ++ leBytes 4 h.medium_hz ++ leBytes 4 h.slow_hz ++
  leBytes 8 h.num_fast_samples ++ leBytes 8 h.num_medium_samples ++
  leBytes 8 h.num_slow_samples ++ leBytes 8 h.num_sync_points ++
  nameTable 8 24 h.power_rail_names ++
  nameTable 16 24 h.thermal_zone_names ++
  List.replicate 64 0

@[simp] theorem encodeFileHeader_length (h : FileHeader) :
    (encodeFileHeader h).length = 728 := by
  simp [encodeFileHeader]

/-- `FastSample` (fastnvmetrics.hpp:64-72); float fields as bit patterns. -/
structure FastSample where
  time_s : Nat
  gpu_load : Nat
  cpu_util : List Nat
  cpu_aggregate : Nat
  ram_used_kb : Nat
  ram_available_kb : Nat
  emc_util : Nat
deriving DecidableEq, Repr

def encodeFastSample (s : FastSample) : List Nat :=
  leBytes 8 s.time_s ++ leBytes 2 s.gpu_load ++
  ((List.range 16).flatMap fun i => leBytes 4 (s.cpu_util.getD i 0)) ++
  leBytes 4 s.cpu_aggregate ++ leBytes 8 s.ram_used_kb ++
  leBytes 8 s.ram_available_kb ++ leBytes 4 s.emc_util

@[simp] theorem encodeFastSample_length (s : FastSample) :
    (encodeFastSample s).length = 98 := by
  simp [encodeFastSample, List.length_flatMap, Function.comp_def,
    List.map_const', List.sum_replicate, smul_eq_mul]

/-- `MediumSample` (fastnvmetrics.hpp:75-80). -/
structure MediumSample where
  time_s : Nat
  voltage_mv : List Nat
  current_ma : List Nat
  power_mw : List Nat
deriving DecidableEq, Repr

def encodeMediumSample (s : MediumSample) : List Nat :=
  leBytes 8 s.time_s ++
  ((List.range 8).flatMap fun i => leBytes 4 (s.voltage_mv.getD i 0)) ++
  ((List.range 8).flatMap fun i => leBytes 4 (s.current_ma.getD i 0)) ++
  ((List.range 8).flatMap fun i => leBytes 4 (s.power_mw.getD i 0))

@[simp] theorem encodeMediumSample_length (s : MediumSample) :
    (encodeMediumSample s).length = 104 := by
  simp [encodeMediumSample, List.length_flatMap, Function.comp_def,
    List.map_const', List.sum_replicate, smul_eq_mul]

/-- `SlowSample` (fastnvmetrics.hpp:83-86). -/
structure SlowSample where
  time_s : Nat
  temp_c : List Nat
deriving DecidableEq, Repr

def encodeSlowSample (s : SlowSample) : List Nat :=
  leBytes 8 s.time_s ++
  ((List.range 16).flatMap fun i => leBytes 4 (s.temp_c.getD i 0))

@[simp] theorem encodeSlowSample_length (s : SlowSample) :
    (encodeSlowSample s).length = 72 := by
  simp [encodeSlowSample, List.length_flatMap, Function.comp_def,
    List.map_const', List.sum_replicate, smul_eq_mul]

/-- `SyncPoint` (fastnvmetrics.hpp:89-92). -/
structure SyncPoint where
  sync_id : Nat
  fast_sample_idx : Nat
deriving DecidableEq, Repr

def encodeSyncPoint (s : SyncPoint) : List Nat :=
  leBytes 8 s.sync_id ++ leBytes 8 s.fast_sample_idx

@[simp] theorem encodeSyncPoint_length (s : SyncPoint) :
    (encodeSyncPoint s).length = 16 := by
  simp [encodeSyncPoint]

/-! ## File-descriptor lifecycle and `Engine::stop` -/

/-- The engine's pseudo-file descriptors (`fd_*_` members); `-1` = absent. -/
structure FdState where
  gpu_load : Int := -1
  proc_stat : Int := -1
  meminfo : Int := -1
  emc : Int := -1
  voltage : List Int := []
  current : List Int := []
  thermal : List Int := []
deriving DecidableEq, Repr

/-- The `try_close` lambda in `Engine::close_fds` (engine.cpp:421-423). -/
def try_close (fd : Int) : Int := if 0 ≤ fd then -1 else fd

/-- `Engine::close_fds` (engine.cpp:420-437): close every open descriptor
and clear the per-rail / per-zone descriptor vectors. -/
def close_fds (f : FdState) : FdState :=
  { gpu_load := try_close f.gpu_load
    proc_stat := try_close f.proc_stat
    meminfo := try_close f.meminfo
    emc := try_close f.emc
    voltage := []
    current := []
    thermal := [] }

/-- No descriptor is open (all scalars negative, all vectors empty of
non-negative entries). -/
def FdState.allClosed (f : FdState) : Bool :=
  decide (f.gpu_load < 0) && decide (f.proc_stat < 0) &&
  decide (f.meminfo < 0) && decide (f.emc < 0) &&
  f.voltage.all (fun fd => decide (fd < 0)) &&
  f.current.all (fun fd => decide (fd < 0)) &&
  f.thermal.all (fun fd => decide (fd < 0))

/-- The engine state that `Engine::stop` / `Engine::write_file` operate on:
configuration echoes, thread joinability, descriptors, the four sample
buffers, and whether `fopen(output_path_, "wb")` would succeed. -/
structure LifeState where
  board_name : List Nat
  num_cpu_cores : Nat
  rail_labels : List (List Nat)
  zone_names : List (List Nat)
  fast_hz : Nat
  medium_hz : Nat
  slow_hz : Nat
  running : Bool
  fastJoinable : Bool
  mediumJoinable : Bool
  slowJoinable : Bool
  fds : FdState
  fast_samples : List FastSample
  medium_samples : List MediumSample
  slow_samples : List SlowSample
  sync_points : List SyncPoint
  outputOpenable : Bool
deriving DecidableEq, Repr

/-- Header construction in `Engine::write_file` (engine.cpp:444-467):
counts come from the final buffer sizes, `emc_available` from whether the
EMC descriptor is open. -/
def build_header (st : LifeState) : FileHeader :=
  { magic := MAGIC
    version := VERSION
    board_name := st.board_name
    num_cpu_cores := st.num_cpu_cores % 256
    num_power_rails := st.rail_labels.length % 256
    num_thermal_zones := st.zone_names.length % 256
    emc_available := if 0 ≤ st.fds.emc then 1 else 0
    fast_hz := st.fast_hz
    medium_hz := st.medium_hz
    slow_hz := st.slow_hz
    num_fast_samples := st.fast_samples.length
    num_medium_samples := st.medium_samples.length
    num_slow_samples := st.slow_samples.length
    num_sync_points := st.sync_points.length
    power_rail_names := st.rail_labels
    thermal_zone_names := st.zone_names }

/-- The byte sequence emitted by the five `fwrite` calls
(engine.cpp:469-473): header, fast array, medium array, slow array,
sync-point array, in that order. -/
def file_image (st : LifeState) : List Nat :=
  encodeFileHeader (build_header st) ++
  st.fast_samples.flatMap encodeFastSample ++
  st.medium_samples.flatMap encodeMediumSample ++
  st.slow_samples.flatMap encodeSlowSample ++
  st.sync_points.flatMap encodeSyncPoint

inductive EngineError
  | ioOpenFailed
deriving DecidableEq, Repr

/-- `Engine::write_file` (engine.cpp:439-476): throws when the output path
cannot be opened, otherwise emits the file image. -/
def write_file (st : LifeState) : Except EngineError (List Nat) :=
  if st.outputOpenable then .ok (file_image st) else .error .ioOpenFailed

/-- Observable outcome of one `Engine::stop` call. -/
structure StopResult where
  state : LifeState
  joinsPerformed : Nat
  written : Option (List Nat)
  error : Option EngineError
deriving DecidableEq, Repr

/-- `Engine::stop` (engine.cpp:106-115): clear `running_`, join each
joinable thread, then `write_file()`, then `close_fds()`.  An exception
from `write_file` propagates to the caller, skipping `close_fds`. -/
def Engine.stop (st : LifeState) : StopResult :=
  let joins := (if st.fastJoinable then 1 else 0) +
    (if st.mediumJoinable then 1 else 0) + (if st.slowJoinable then 1 else 0)
  let st1 : LifeState := { st with
    running := false, fastJoinable := false,
    mediumJoinable := false, slowJoinable := false }
  match write_file st1 with
  | .ok bytes => ⟨{ st1 with fds := close_fds st1.fds }, joins, some bytes, none⟩
  | .error e => ⟨st1, joins, none, some e⟩

/-- C1 — the trace file written at stop is, in order, the 728-byte header,
the fast, medium, slow and sync-point arrays; each header count equals the
final size of the corresponding buffer, and the total size is
`728 + 98·F + 104·M + 72·S + 16·K`. -/
theorem trace_file_layout (st : LifeState) (h : st.outputOpenable = true) :
    (Engine.stop st).written = some (file_image st) ∧
    (build_header st).num_fast_samples = st.fast_samples.length ∧
    (build_header st).num_medium_samples = st.medium_samples.length ∧
    (build_header st).num_slow_samples = st.slow_samples.length ∧
    (build_header st).num_sync_points = st.sync_points.length ∧
    file_image st = encodeFileHeader (build_header st) ++
      st.fast_samples.flatMap encodeFastSample ++
      st.medium_samples.flatMap encodeMediumSample ++
      st.slow_samples.flatMap encodeSlowSample ++
      st.sync_points.flatMap encodeSyncPoint ∧
    (file_image st).length = 728 +
      98 * (build_header st).num_fast_samples +
      104 * (build_header st).num_medium_samples +
      72 * (build_header st).num_slow_samples +
      16 * (build_header st).num_sync_points := by
  refine ⟨?_, rfl, rfl, rfl, rfl, rfl, ?_⟩
  · simp [Engine.stop, write_file, h, file_image, build_header]
  · have hf := length_flatMap_const encodeFastSample 98
      (fun a => encodeFastSample_length a) st.fast_samples
    have hm := length_flatMap_const encodeMediumSample 104
      (fun a => encodeMediumSample_length a) st.medium_samples
    have hs := length_flatMap_const encodeSlowSample 72
      (fun a => encodeSlowSample_length a) st.slow_samples
    have hk := length_flatMap_const encodeSyncPoint 16
      (fun a => encodeSyncPoint_length a) st.sync_points
    simp only [file_image, List.length_append, encodeFileHeader_length,
      hf, hm, hs, hk, build_header]
    omega

/-- A concrete stopped-engine state: one fast sample, two sync points. -/
def testLifeState : LifeState :=
  { board_name := [], num_cpu_cores := 4, rail_labels := [], zone_names := []
    fast_hz := 1000, medium_hz := 100, slow_hz := 10
    running := false, fastJoinable := false, mediumJoinable := false
    slowJoinable := false, fds := {}
    fast_samples := [⟨0, 0, [], 0, 0, 0, 0⟩]
    medium_samples := [], slow_samples := []
    sync_points := [⟨1, 0⟩, ⟨2, 1⟩]
    outputOpenable := true }

/-- Witness for `trace_file_layout` at `testLifeState`. -/
theorem trace_file_layout_witness :
    (Engine.stop testLifeState).written = some (file_image testLifeState) ∧
    (file_image testLifeState).length = 728 + 98 * 1 + 104 * 0 + 72 * 0 + 16 * 2 := by
  have h := trace_file_layout testLifeState rfl
  exact ⟨h.1, by simpa [build_header, testLifeState] using h.2.2.2.2.2.2⟩

/-- A running-engine state whose output path cannot be opened and whose
GPU-load descriptor is open (value 3). -/
def failWriterState : LifeState := { testLifeState with
  outputOpenable := false
  fastJoinable := true
  fds := { gpu_load := 3 } }

/-- C6 counterexample — when the writer cannot open the output path,
`stop` surfaces the error but `close_fds` is skipped: at this state the
GPU-load descriptor (value 3) is still open after `stop` throws. -/
theorem stop_writer_failure_leaves_fds_open :
    (Engine.stop failWriterState).error = some EngineError.ioOpenFailed ∧
    (Engine.stop failWriterState).state.fds.gpu_load = 3 ∧
    FdState.allClosed (Engine.stop failWriterState).state.fds = false := by
  refine ⟨rfl, rfl, by decide⟩

/-- C6 (amended) — after `stop`, all three tier threads have been joined in
every case; when the writer opens the output path, no error is surfaced and
every descriptor is closed, but when it cannot, the `IoOpenFailed` error is
surfaced to the caller and the descriptors are left exactly as they were
(closing is skipped). -/
theorem stop_thread_and_fd_lifecycle (st : LifeState) :
    (Engine.stop st).state.fastJoinable = false ∧
    (Engine.stop st).state.mediumJoinable = false ∧
    (Engine.stop st).state.slowJoinable = false ∧
    (Engine.stop st).error =
      (if st.outputOpenable then none else some EngineError.ioOpenFailed) ∧
    (Engine.stop st).state.fds =
      (if st.outputOpenable then close_fds st.fds else st.fds) ∧
    FdState.allClosed (close_fds st.fds) = true := by
  have hc : FdState.allClosed (close_fds st.fds) = true := by
    simp [FdState.allClosed, close_fds, try_close]
    refine ⟨⟨⟨?_, ?_⟩, ?_⟩, ?_⟩ <;> split <;> omega
  cases ho : st.outputOpenable <;>
    simp [Engine.stop, write_file, ho, hc]

/-- The members a never-started engine has right after construction
(fastnvmetrics.hpp:186-214 in-class initialisers): not running, no
joinable thread, all descriptors `-1`, all buffers empty. -/
def freshEngine (bn : List Nat) (cores : Nat) (labels zones : List (List Nat))
    (cfg : EngineConfig) (openable : Bool) : LifeState :=
  { board_name := bn, num_cpu_cores := cores, rail_labels := labels
    zone_names := zones
    fast_hz := cfg.fast_hz, medium_hz := cfg.medium_hz, slow_hz := cfg.slow_hz
    running := false, fastJoinable := false, mediumJoinable := false
    slowJoinable := false, fds := {}
    fast_samples := [], medium_samples := [], slow_samples := []
    sync_points := [], outputOpenable := openable }

/-- C10 — `stop` on a never-started engine does not fail: it joins no
threads, still invokes the writer, and (the output path being openable)
produces exactly the 728-byte header with all four counts zero; a second
`stop` likewise joins nothing, does not fail, and rewrites the same bytes. -/
theorem stop_without_start (bn : List Nat) (cores : Nat)
    (labels zones : List (List Nat)) (cfg : EngineConfig) :
    let st := freshEngine bn cores labels zones cfg true
    let r := Engine.stop st
    r.joinsPerformed = 0 ∧ r.error = none ∧
    r.written = some (encodeFileHeader (build_header st)) ∧
    (build_header st).num_fast_samples = 0 ∧
    (build_header st).num_medium_samples = 0 ∧
    (build_header st).num_slow_samples = 0 ∧
    (build_header st).num_sync_points = 0 ∧
    (r.written.getD []).length = 728 ∧
    (Engine.stop r.state).joinsPerformed = 0 ∧
    (Engine.stop r.state).error = none ∧
    (Engine.stop r.state).written = r.written := by
  simp [freshEngine, Engine.stop, write_file, file_image, build_header,
    close_fds, try_close]

/-! ## Run-time state of one run

The shared state the three tier threads and the API mutate during a run:
the `running_` and `warmed_up_` atomics, the `fast_count_` counter, the
fast buffer's timestamps (as exact rationals), the medium/slow sample
counts and the sync-point log.  `Step` is the small-step relation whose
guards are the loop conditions in `engine.cpp`; time values are oracles. -/

structure EngState where
  running : Bool
  warmedUp : Bool
  fastCount : Nat
  fastTimes : List ℚ
  mediumCount : Nat
  slowCount : Nat
  syncPoints : List SyncPoint

/-- State right after `Engine::start` (engine.cpp:83-104): running, not
warmed up, counter reset, buffers cleared. -/
def startState : EngState := ⟨true, false, 0, [], 0, 0, []⟩

/-- `Engine::sync` (engine.cpp:124-130): under the sync mutex, the new id
is `size + 1`, and the recorded index is the current `fast_count_`. -/
def Engine.sync (st : EngState) : EngState × Nat :=
  let id := st.syncPoints.length + 1
  ({ st with
      syncPoints := st.syncPoints ++ [⟨id, st.fastCount⟩] }, id)

/-- The wake predicate `Engine::wait_for_warmup` blocks on
(engine.cpp:119-121): the `warmed_up_` flag alone. -/
def wait_for_warmup_pred (st : EngState) : Bool := st.warmedUp

/-- The release condition the spec prescribes for the warmup barrier (§9
design note: "The barrier release condition should be
`warmed_up OR NOT running` so that `stop` universally unblocks waiters"),
stated for comparison with `wait_for_warmup_pred`. -/
def barrier_release_spec (st : EngState) : Bool := st.warmedUp || !st.running

/-- One observable transition of a run.  `fastTick` is an append by the
fast thread (guard: its loop checked `running_`); `warm` is the fast
thread publishing `warmed_up_`; `mediumTick`/`slowTick` are appends by the
downstream tiers (guards: they passed `wait_for_warmup`, i.e. `warmed_up_`
was observed true, and their loop checked `running_`); `syncCall` is an
external `Engine::sync`; `stopFlag` is `stop` clearing `running_`. -/
inductive Step : EngState → EngState → Prop
  | fastTick (st : EngState) (t : ℚ) (h : st.running = true) :
      Step st { st with
        fastTimes := st.fastTimes ++ [t], fastCount := st.fastCount + 1 }
  | warm (st : EngState) :
      Step st { st with warmedUp := true }
  | syncCall (st : EngState) :
      Step st (Engine.sync st).1
  | mediumTick (st : EngState) (hw : st.warmedUp = true)
      (hr : st.running = true) :
      Step st { st with mediumCount := st.mediumCount + 1 }
  | slowTick (st : EngState) (hw : st.warmedUp = true)
      (hr : st.running = true) :
      Step st { st with slowCount := st.slowCount + 1 }
  | stopFlag (st : EngState) :
      Step st { st with running := false }

/-- Finitely many `Step`s. -/
inductive Reaches : EngState → EngState → Prop
  | refl (s : EngState) : Reaches s s
  | tail {s t u : EngState} : Reaches s t → Step t u → Reaches s u

theorem Step.fastCount_step_le {s t : EngState} (h : Step s t) :
    s.fastCount ≤ t.fastCount := by
  cases h <;> simp [Engine.sync]

theorem Reaches.fastCount_le_of_reaches {s t : EngState} (h : Reaches s t) :
    s.fastCount ≤ t.fastCount := by
  induction h with
  | refl => exact le_refl _
  | tail hr hs ih => exact le_trans ih hs.fastCount_step_le

/-- The invariant carried along a run for the sync log. -/
def syncInv (st : EngState) : Prop :=
  (∀ k, k < st.syncPoints.length →
    (st.syncPoints.getD k ⟨0, 0⟩).sync_id = k + 1) ∧
  (∀ i j, i ≤ j → j < st.syncPoints.length →
    (st.syncPoints.getD i ⟨0, 0⟩).fast_sample_idx ≤
      (st.syncPoints.getD j ⟨0, 0⟩).fast_sample_idx) ∧
  (∀ p ∈ st.syncPoints, p.fast_sample_idx ≤ st.fastCount)

theorem syncInv_start : syncInv startState := by
  refine ⟨?_, ?_, ?_⟩ <;> simp [startState]

theorem Step.syncInv_preserved {s t : EngState} (h : Step s t)
    (hs : syncInv s) : syncInv t := by
  obtain ⟨hid, hmono, hle⟩ := hs
  cases h with
  | fastTick t ht =>
    exact ⟨hid, hmono, fun p hp => le_trans (hle p hp) (Nat.le_succ _)⟩
  | warm => exact ⟨hid, hmono, hle⟩
  | mediumTick hw hr => exact ⟨hid, hmono, hle⟩
  | slowTick hw hr => exact ⟨hid, hmono, hle⟩
  | stopFlag => exact ⟨hid, hmono, hle⟩
  | syncCall =>
    have hlen : ∀ k, k < s.syncPoints.length →
        ((s.syncPoints ++ [(⟨s.syncPoints.length + 1, s.fastCount⟩ : SyncPoint)]).getD k
          ⟨0, 0⟩) = s.syncPoints.getD k ⟨0, 0⟩ :=
      fun k hk => List.getD_append _ _ _ _ hk
    have hlast :
        ((s.syncPoints ++ [(⟨s.syncPoints.length + 1, s.fastCount⟩ : SyncPoint)]).getD
          s.syncPoints.length ⟨0, 0⟩) =
          ⟨s.syncPoints.length + 1, s.fastCount⟩ := by
      rw [List.getD_append_right _ _ _ _ (le_refl _)]
      simp
    refine ⟨?_, ?_, ?_⟩ <;>
      simp only [Engine.sync, List.length_append, List.length_cons,
        List.length_nil, List.length_singleton]
    · intro k hk
      rcases Nat.lt_succ_iff_lt_or_eq.mp hk with h | h
      · rw [hlen k h]; exact hid k h
      · subst h; rw [hlast]
    · intro i j hij hj
      rcases Nat.lt_succ_iff_lt_or_eq.mp hj with h | h
      · rw [hlen i (lt_of_le_of_lt hij h), hlen j h]
        exact hmono i j hij h
      · subst h
        rw [hlast]
        rcases Nat.lt_or_ge i s.syncPoints.length with hi | hi
        · rw [hlen i hi]
          refine hle _ ?_
          rw [List.getD_eq_getElem _ _ hi]
          exact List.getElem_mem hi
        · have : i = s.syncPoints.length := le_antisymm hij hi
          subst this
          rw [hlast]
    · intro p hp
      rcases List.mem_append.mp hp with h | h
      · exact hle p h
      · simp at h
        subst h
        exact le_refl _

theorem Reaches.syncInv_holds {st : EngState}
    (h : Reaches startState st) : syncInv st := by
  induction h with
  | refl => exact syncInv_start
  | tail hr hs ih => exact hs.syncInv_preserved ih

/-- C2 — `sync()` returns `prior_count + 1` and records the current
`fast_count`; along any run the recorded `sync_id`s are the dense sequence
1, 2, … in insertion order and `fast_sample_idx` is non-decreasing. -/
theorem sync_numbering (st : EngState) (h : Reaches startState st) :
    (Engine.sync st).2 = st.syncPoints.length + 1 ∧
    (Engine.sync st).1.syncPoints = st.syncPoints ++
      [(⟨st.syncPoints.length + 1, st.fastCount⟩ : SyncPoint)] ∧
    (∀ k, k < st.syncPoints.length →
      (st.syncPoints.getD k ⟨0, 0⟩).sync_id = k + 1) ∧
    (∀ i j, i ≤ j → j < st.syncPoints.length →
      (st.syncPoints.getD i ⟨0, 0⟩).fast_sample_idx ≤
        (st.syncPoints.getD j ⟨0, 0⟩).fast_sample_idx) := by
  obtain ⟨hid, hmono, -⟩ := h.syncInv_holds
  exact ⟨rfl, rfl, hid, hmono⟩

/-- Witness for `sync_numbering`: two `sync` calls right after `start`
return ids 1 and 2 and leave a log whose second entry has id 2. -/
theorem sync_numbering_witness :
    (Engine.sync startState).2 = 1 ∧
    (Engine.sync (Engine.sync startState).1).2 = 2 ∧
    (((Engine.sync (Engine.sync startState).1).1.syncPoints.getD 1
      ⟨0, 0⟩).sync_id = 2) := by
  have h1 := sync_numbering startState (Reaches.refl _)
  have h2 := sync_numbering (Engine.sync startState).1
    (Reaches.tail (Reaches.refl _) (Step.syncCall _))
  have h3 := sync_numbering (Engine.sync (Engine.sync startState).1).1
    (Reaches.tail (Reaches.tail (Reaches.refl _) (Step.syncCall _))
      (Step.syncCall _))
  refine ⟨h1.1, h2.1, h3.2.2.1 1 (by decide)⟩

/-- C4 — divergence between the code and the spec at the warmup barrier:
in the state reached when `stop` clears `running` before the fast thread
ever set `warmed_up` (e.g. a waiter blocked in `wait_for_warmup` when
`stop` is called on a never-started engine), the code's wake predicate is
still false — the waiter stays blocked — whereas the spec's prescribed
release condition `warmed_up OR NOT running` is true. -/
theorem warmup_barrier_stop_divergence :
    Reaches startState { startState with running := false } ∧
    wait_for_warmup_pred { startState with running := false } = false ∧
    barrier_release_spec { startState with running := false } = true ∧
    (∀ st : EngState, wait_for_warmup_pred st = st.warmedUp) := by
  exact ⟨Reaches.tail (Reaches.refl _) (Step.stopFlag _), rfl, rfl,
    fun st => rfl⟩

/-! ## The fast thread (`Engine::run_fast`, engine.cpp:319-360)

Both its loops have the same body: check `running_` (oracle `obs i` for
the `i`-th read), and if true take a sample stamped `monotonic_s() - t0`
(oracle `clock i` for the `i`-th clock read), append it and bump
`fast_count_`.  The primer loop runs at most 10 iterations; the steady
loop runs until `running_` is observed false (any finite run performs
finitely many iterations, `fuel`). -/

def fast_iter : Nat → Nat → (Nat → Bool) → (Nat → ℚ) → ℚ → EngState →
    EngState × Nat
  | 0, i, _, _, _, st => (st, i)
  | n + 1, i, obs, clock, t0, st =>
    if obs i then
      fast_iter n (i + 1) obs clock t0 { st with
        fastTimes := st.fastTimes ++ [clock i - t0],
        fastCount := st.fastCount + 1 }
    else (st, i)

/-- `Engine::run_fast`: 10 primer iterations, then the warmup flag is
published (under the warmup mutex, then `notify_all`), then the
steady-state loop. -/
def run_fast (fuel : Nat) (obs : Nat → Bool) (clock : Nat → ℚ) (t0 : ℚ)
    (st : EngState) : EngState :=
  let p := fast_iter 10 0 obs clock t0 st
  let st1 := { p.1 with warmedUp := true }
  (fast_iter fuel p.2 obs clock t0 st1).1

theorem fast_iter_all_true (n : Nat) (obs : Nat → Bool) (clock : Nat → ℚ)
    (t0 : ℚ) :
    ∀ (i : Nat) (st : EngState), (∀ j, i ≤ j → j < i + n → obs j = true) →
    (fast_iter n i obs clock t0 st).1.fastCount = st.fastCount + n ∧
    (fast_iter n i obs clock t0 st).1.fastTimes.length =
      st.fastTimes.length + n ∧
    (fast_iter n i obs clock t0 st).1.warmedUp = st.warmedUp ∧
    (fast_iter n i obs clock t0 st).1.mediumCount = st.mediumCount ∧
    (fast_iter n i obs clock t0 st).1.slowCount = st.slowCount ∧
    (fast_iter n i obs clock t0 st).2 = i + n := by
  induction n with
  | zero => intro i st _; simp [fast_iter]
  | succ n ih =>
    intro i st hobs
    rw [fast_iter, hobs i (le_refl i) (by omega)]
    simp only [if_true]
    have := ih (i + 1) { st with
      fastTimes := st.fastTimes ++ [clock i - t0],
      fastCount := st.fastCount + 1 }
      (fun j h1 h2 => hobs j (by omega) (by omega))
    simp only [List.length_append, List.length_cons, List.length_nil] at this
    refine ⟨by omega, by omega, by rw [this.2.2.1], by rw [this.2.2.2.1],
      by rw [this.2.2.2.2.1], by omega⟩

/-- Invariant `warmed_up = false → no medium/slow sample yet`, carried
along any run: the medium and slow loops run only after passing
`wait_for_warmup`. -/
theorem Step.tiersGated {s t : EngState} (h : Step s t)
    (hs : s.warmedUp = false → s.mediumCount = 0 ∧ s.slowCount = 0) :
    t.warmedUp = false → t.mediumCount = 0 ∧ t.slowCount = 0 := by
  cases h with
  | fastTick t ht => exact hs
  | warm => intro hw; cases hw
  | syncCall => exact hs
  | mediumTick hw hr => intro hw'; rw [show s.warmedUp = false from hw'] at hw
                        cases hw
  | slowTick hw hr => intro hw'; rw [show s.warmedUp = false from hw'] at hw
                      cases hw
  | stopFlag => exact hs

theorem Reaches.tiersGated_holds {st : EngState}
    (h : Reaches startState st) :
    st.warmedUp = false → st.mediumCount = 0 ∧ st.slowCount = 0 := by
  induction h with
  | refl => intro _; exact ⟨rfl, rfl⟩
  | tail hr hs ih => exact hs.tiersGated ih

/-- C5 — in a run whose first ten `running_` reads are all true (not
stopped during warmup), the fast thread appends exactly 10 primer samples,
each bumping `fast_count`, with `warmed_up` still unset, and only then
publishes `warmed_up`; every state from that publication on has
`sample_count ≥ 10` (so `wait_for_warmup` cannot return earlier with
less), and no medium or slow sample exists in any state where `warmed_up`
is still false. -/
theorem warmup_primer_behavior (obs : Nat → Bool) (clock : Nat → ℚ)
    (t0 : ℚ) (h10 : ∀ i, i < 10 → obs i = true) :
    (fast_iter 10 0 obs clock t0 startState).1.fastCount = 10 ∧
    (fast_iter 10 0 obs clock t0 startState).1.fastTimes.length = 10 ∧
    (fast_iter 10 0 obs clock t0 startState).1.warmedUp = false ∧
    wait_for_warmup_pred (run_fast 0 obs clock t0 startState) = true ∧
    (∀ st', Reaches (run_fast 0 obs clock t0 startState) st' →
      10 ≤ st'.fastCount) ∧
    (∀ st', Reaches startState st' → st'.warmedUp = false →
      st'.mediumCount = 0 ∧ st'.slowCount = 0) := by
  have hp := fast_iter_all_true 10 obs clock t0 0 startState
    (fun j h1 h2 => h10 j (by omega))
  refine ⟨hp.1.trans rfl, hp.2.1.trans rfl, hp.2.2.1.trans rfl, rfl, ?_, ?_⟩
  · intro st' hr
    have hle := hr.fastCount_le_of_reaches
    have h0 : (run_fast 0 obs clock t0 startState).fastCount = 10 := by
      show (fast_iter 10 0 obs clock t0 startState).1.fastCount = 10
      exact hp.1.trans rfl
    omega
  · exact fun st' hr => hr.tiersGated_holds

/-- Witness for `warmup_primer_behavior` with the always-true oracle. -/
theorem warmup_primer_behavior_witness :
    (fast_iter 10 0 (fun _ => true) (fun i => (i : ℚ)) 0
      startState).1.fastCount = 10 ∧
    wait_for_warmup_pred (run_fast 0 (fun _ => true) (fun i => (i : ℚ)) 0
      startState) = true := by
  have h := warmup_primer_behavior (fun _ => true) (fun i => (i : ℚ)) 0
    (fun i _ => rfl)
  exact ⟨h.1, h.2.2.2.1⟩

theorem fast_iter_times_mono (obs : Nat → Bool) (clock : Nat → ℚ)
    (t0 : ℚ) (hclock : StrictMono clock) (n : Nat) :
    ∀ (i : Nat) (st : EngState),
    List.Pairwise (· < ·) st.fastTimes →
    (∀ t ∈ st.fastTimes, ∀ j, i ≤ j → t < clock j - t0) →
    List.Pairwise (· < ·) (fast_iter n i obs clock t0 st).1.fastTimes ∧
    (∀ t ∈ (fast_iter n i obs clock t0 st).1.fastTimes, ∀ j,
      (fast_iter n i obs clock t0 st).2 ≤ j → t < clock j - t0) := by
  induction n with
  | zero => intro i st h1 h2; exact ⟨h1, h2⟩
  | succ n ih =>
    intro i st h1 h2
    cases hob : obs i with
    | false =>
      rw [fast_iter, hob]
      exact ⟨h1, h2⟩
    | true =>
      rw [fast_iter, hob]
      simp only [if_true]
      refine ih (i + 1) _ ?_ ?_
      · rw [List.pairwise_append]
        refine ⟨h1, List.pairwise_singleton _ _, ?_⟩
        intro a ha b hb
        rw [List.mem_singleton] at hb
        subst hb
        exact h2 a ha i (le_refl i)
      · intro t ht j hij
        rcases List.mem_append.mp ht with h | h
        · exact h2 t h j (by omega)
        · rw [List.mem_singleton] at h
          subst h
          exact sub_lt_sub_right (hclock (by omega)) t0

/-- C9 — within a single run (buffers cleared at `start`, successive
`monotonic_s` reads strictly increasing), the fast-tier timestamps
`monotonic_s() - t0` recorded in the fast buffer are strictly increasing:
for recorded samples `i < j`, `time_s i < time_s j`. -/
theorem fast_timestamps_strict_mono (fuel : Nat) (obs : Nat → Bool)
    (clock : Nat → ℚ) (t0 : ℚ) (hclock : StrictMono clock) :
    List.Pairwise (· < ·)
      ((run_fast fuel obs clock t0 startState).fastTimes) := by
  have hp := fast_iter_times_mono obs clock t0 hclock 10 0 startState
    List.Pairwise.nil (by intro t ht; cases ht)
  have hm := fast_iter_times_mono obs clock t0 hclock fuel
    (fast_iter 10 0 obs clock t0 startState).2
    { (fast_iter 10 0 obs clock t0 startState).1 with warmedUp := true }
    hp.1 hp.2
  exact hm.1

/-- Witness for `fast_timestamps_strict_mono` with the identity clock. -/
theorem fast_timestamps_strict_mono_witness :
    List.Pairwise (· < ·)
      ((run_fast 2 (fun _ => true) (fun i => (i : ℚ)) 0
        startState).fastTimes) :=
  fast_timestamps_strict_mono 2 (fun _ => true) (fun i => (i : ℚ)) 0
    Nat.strictMono_cast

/-! ## The `/proc/stat` reader (`Engine::read_cpu`, engine.cpp:147-229)

The buffer is a `List Char`; `none` models a failed `sysfs_read`.  All
`uint64_t` arithmetic carries an explicit `% 2^64`; the `float`
division/clamping is exact over `ℚ`. -/

def U64 : Nat := 2 ^ 64

/-- Reduction into `uint64_t` range. -/
def wrap (n : Nat) : Nat := n % U64

/-- `uint64_t` subtraction `a - b` (wrapping), for `b < 2^64`. -/
def wsub (a b : Nat) : Nat := (a + U64 - b) % U64

def isDigitChar (c : Char) : Bool := decide ('0' ≤ c) && decide (c ≤ '9')

/-- The digit-consuming loop of `parse_u64` (engine.cpp:50-54); the
`uint64_t` accumulator wraps. -/
def parseDigits : List Char → Nat → Nat × List Char
  | [], v => (v, [])
  | c :: cs, v =>
    if isDigitChar c then parseDigits cs (wrap (v * 10 + (c.toNat - 48)))
    else (v, c :: cs)

/-- The trailing space/tab skip of `parse_u64` (engine.cpp:55). -/
def skipWs : List Char → List Char
  | [] => []
  | c :: cs => if c = ' ' ∨ c = '\t' then skipWs cs else c :: cs

/-- `parse_u64` (engine.cpp:49-57): digits, then whitespace. -/
def parse_u64 (p : List Char) : Nat × List Char :=
  let d := parseDigits p 0
  (d.1, skipWs d.2)

/-- `skip_past` (engine.cpp:43-46); `none` models the null return when the
target character does not occur. -/
def skip_past : List Char → Char → Option (List Char)
  | [], _ => none
  | c :: cs, t => if c = t then some cs else skip_past cs t

/-- The ten-value loop of `read_cpu` (engine.cpp:198-200): before each
`parse_u64` the condition `*q && *q != '\n'` is re-checked; values not
parsed keep their zero initialisation. -/
def parse_vals : Nat → List Char → List Nat × List Char
  | 0, q => ([], q)
  | n + 1, [] => (List.replicate (n + 1) 0, [])
  | n + 1, c :: cs =>
    if c = '\n' then (List.replicate (n + 1) 0, c :: cs)
    else
      let v := parse_u64 (c :: cs)
      let rest := parse_vals n v.2
      (v.1 :: rest.1, rest.2)

/-- The `"cpu"` prefix check at the top of each per-core iteration
(engine.cpp:192). -/
def stripCpu : List Char → Option (List Char)
  | 'c' :: 'p' :: 'u' :: rest => some rest
  | _ => none

/-- Skip the core number digits (engine.cpp:195). -/
def skipDigits : List Char → List Char
  | [] => []
  | c :: cs => if isDigitChar c then skipDigits cs else c :: cs

/-- Skip the single space after the core number (engine.cpp:196). -/
def skipOneSpace : List Char → List Char
  | ' ' :: cs => cs
  | l => l

/-- The per-core loop of `read_cpu` (engine.cpp:190-222): walk up to
`fuel = num_cpu_cores - c` lines, computing each core's clamped
utilisation from the `uint64_t` deltas against `prev_cpu_[c]` (which is
then updated in place), returning the utilisations in order and the
updated previous-jiffies vector. -/
def read_cpu_go : Nat → Nat → Option (List Char) → List (Nat × Nat) →
    List ℚ × List (Nat × Nat)
  | 0, _, _, prev => ([], prev)
  | _ + 1, _, none, prev => ([], prev)
  | fuel + 1, c, some p, prev =>
    match stripCpu p with
    | none => ([], prev)
    | some r1 =>
      let pv := parse_vals 10 (skipOneSpace (skipDigits r1))
      let vals := pv.1
      let total := (vals.take 8).foldl (fun a v => wrap (a + v)) 0
      let idle := wrap (vals.getD 3 0 + vals.getD 4 0)
      let pc := prev.getD c (0, 0)
      let d_total := wsub total pc.1
      let d_idle := wsub idle pc.2
      let util : ℚ :=
        if 0 < d_total then
          100 * ((wsub d_total d_idle : Nat) : ℚ) / (d_total : ℚ)
        else 0
      let u : ℚ := if util < 0 then 0 else if 100 < util then 100 else util
      let rest := read_cpu_go fuel (c + 1) (skip_past pv.2 '\n')
        (prev.set c (total, idle))
      (u :: rest.1, rest.2)

/-- `Engine::read_cpu` (engine.cpp:147-229).  On read failure everything
is zeroed (the sample struct is zero-initialised, so all 16 slots are 0);
otherwise the aggregate line is skipped (the block at engine.cpp:163-180
computes values it discards), up to `num_cpu_cores` per-core lines are
processed, per-core slots from `cores_parsed` up to `MAX_CPU_CORES` are
zero-filled, and the aggregate is the mean over the parsed cores. -/
def read_cpu (cores : Nat) (buf : Option (List Char))
    (prev : List (Nat × Nat)) : List ℚ × ℚ × List (Nat × Nat) :=
  match buf with
  | none => (List.replicate 16 0, 0, prev)
  | some b =>
    let r := read_cpu_go cores 0 (skip_past b '\n') prev
    let k := r.1.length
    let per_core := r.1 ++ List.replicate (16 - k) 0
    let aggregate : ℚ := if 0 < k then r.1.foldl (· + ·) 0 / (k : ℚ) else 0
    (per_core, aggregate, r.2)

/-! Specification-side definitions, written from the spec's words (§4.2,
§4.3), to be relating to the loop above. -/

/-- Spec §4.2: `total = sum of first 8 fields` (a `uint64_t`). -/
def specTotal (vals : List Nat) : Nat := wrap (vals.take 8).sum

/-- Spec §4.2: `idle_sum = idle + iowait` (fields 3 and 4). -/
def specIdleSum (vals : List Nat) : Nat :=
  wrap (vals.getD 3 0 + vals.getD 4 0)

/-- Spec §4.3: `d_total = total − prev_total`, `d_idle = idle_sum −
prev_idle`, `u = 100 × (d_total − d_idle) / d_total` when `d_total > 0`,
else 0, clamped to [0, 100] — in `uint64_t` delta arithmetic. -/
def specCoreUtil (prev : Nat × Nat) (vals : List Nat) : ℚ :=
  let d_total := wsub (specTotal vals) prev.1
  let d_idle := wsub (specIdleSum vals) prev.2
  if 0 < d_total then
    min 100 (max 0 (100 * ((wsub d_total d_idle : Nat) : ℚ) / (d_total : ℚ)))
  else 0

/-- The token stream of per-core value lists the loop walk extracts from
the buffer: the pointer-walking part of `read_cpu_go`, without the
arithmetic. -/
def cpu_tokens : Nat → Option (List Char) → List (List Nat)
  | 0, _ => []
  | _ + 1, none => []
  | fuel + 1, some p =>
    match stripCpu p with
    | none => []
    | some r1 =>
      let pv := parse_vals 10 (skipOneSpace (skipDigits r1))
      pv.1 :: cpu_tokens fuel (skip_past pv.2 '\n')

theorem cpu_tokens_length_le (fuel : Nat) :
    ∀ p, (cpu_tokens fuel p).length ≤ fuel := by
  induction fuel with
  | zero => intro p; simp [cpu_tokens]
  | succ n ih =>
    intro p
    match p with
    | none => simp [cpu_tokens]
    | some q =>
      rw [cpu_tokens]
      match stripCpu q with
      | none => simp
      | some r1 =>
        simp only [List.length_cons]
        exact Nat.succ_le_succ (ih _)

theorem foldl_wrap_add (l : List Nat) :
    ∀ a, l.foldl (fun x v => wrap (x + v)) (wrap a) = wrap (a + l.sum) := by
  induction l with
  | nil => intro a; simp [wrap]
  | cons b t ih =>
    intro a
    simp only [List.foldl_cons, List.sum_cons]
    have h1 : wrap (wrap a + b) = wrap (a + b) := by
      simp [wrap, Nat.mod_add_mod]
    rw [h1, ih (a + b)]
    congr 1
    omega

theorem code_total_eq_spec (vals : List Nat) :
    (vals.take 8).foldl (fun a v => wrap (a + v)) 0 = specTotal vals := by
  have h0 : (0 : Nat) = wrap 0 := by simp [wrap]
  rw [h0, foldl_wrap_add, specTotal]
  simp

/-- The clamped utilisation computed by the loop body equals the spec's
formula. -/
theorem coreUtil_code_eq_spec (pc : Nat × Nat) (vals : List Nat) :
    (let total := (vals.take 8).foldl (fun a v => wrap (a + v)) 0
     let idle := wrap (vals.getD 3 0 + vals.getD 4 0)
     let d_total := wsub total pc.1
     let d_idle := wsub idle pc.2
     let util : ℚ :=
       if 0 < d_total then
         100 * ((wsub d_total d_idle : Nat) : ℚ) / (d_total : ℚ)
       else 0
     if util < 0 then 0 else if 100 < util then 100 else util) =
    specCoreUtil pc vals := by
  simp only [code_total_eq_spec, specCoreUtil]
  by_cases hd : 0 < wsub (specTotal vals) pc.1
  · simp only [hd, if_true, specIdleSum]
    set q : ℚ := 100 *
      ((wsub (wsub (specTotal vals) pc.1)
        (wsub (wrap (vals.getD 3 0 + vals.getD 4 0)) pc.2) : Nat) : ℚ) /
      ((wsub (specTotal vals) pc.1 : Nat) : ℚ) with hq
    have hq0 : 0 ≤ q := by
      rw [hq]
      positivity
    rw [if_neg (not_lt.mpr hq0), max_eq_right hq0]
    by_cases h100 : 100 < q
    · rw [if_pos h100, min_eq_left (le_of_lt h100)]
    · rw [if_neg h100, min_eq_right (not_lt.mp h100)]
  · simp only [hd, if_false]
    norm_num

theorem getD_set_self {α : Type} {l : List α} {i : Nat} (h : i < l.length)
    (v d : α) : (l.set i v).getD i d = v := by
  rw [List.getD_eq_getElem?_getD, List.getElem?_set_self (by omega)]
  rfl

theorem getD_set_ne {α : Type} {l : List α} {i j : Nat} (h : i ≠ j)
    (v d : α) : (l.set i v).getD j d = l.getD j d := by
  rw [List.getD_eq_getElem?_getD, List.getElem?_set_ne h,
    ← List.getD_eq_getElem?_getD]

/-- The per-core loop is, pointwise, the spec's per-core computation over
the token stream: the `m`-th produced utilisation is the spec formula
applied to the stored previous jiffies at index `c + m` and the `m`-th
token, and the previous-jiffies vector is updated exactly at the indices
of the parsed cores with their `(total, idle_sum)`. -/
theorem read_cpu_go_spec (fuel : Nat) :
    ∀ (c : Nat) (p : Option (List Char)) (prev : List (Nat × Nat)),
    c + fuel ≤ prev.length →
    (read_cpu_go fuel c p prev).1 =
      (List.range (cpu_tokens fuel p).length).map
        (fun m => specCoreUtil (prev.getD (c + m) (0, 0))
          ((cpu_tokens fuel p).getD m [])) ∧
    (∀ ix, (read_cpu_go fuel c p prev).2.getD ix (0, 0) =
      if c ≤ ix ∧ ix < c + (cpu_tokens fuel p).length then
        (specTotal ((cpu_tokens fuel p).getD (ix - c) []),
         specIdleSum ((cpu_tokens fuel p).getD (ix - c) []))
      else prev.getD ix (0, 0)) := by
  induction fuel with
  | zero =>
    intro c p prev hlen
    refine ⟨by simp [read_cpu_go, cpu_tokens], fun ix => ?_⟩
    simp [read_cpu_go, cpu_tokens]
    rw [if_neg (by omega)]
  | succ n ih =>
    intro c p prev hlen
    match p with
    | none =>
      refine ⟨by simp [read_cpu_go, cpu_tokens], fun ix => ?_⟩
      simp [read_cpu_go, cpu_tokens]
      rw [if_neg (by omega)]
    | some b =>
      cases hstrip : stripCpu b with
      | none =>
        refine ⟨by simp [read_cpu_go, cpu_tokens, hstrip], fun ix => ?_⟩
        simp [read_cpu_go, cpu_tokens, hstrip]
        rw [if_neg (by omega)]
      | some r1 =>
        have hc : c < prev.length := by omega
        simp only [read_cpu_go, cpu_tokens, hstrip]
        set pv := parse_vals 10 (skipOneSpace (skipDigits r1)) with hpv
        set A := pv.1 with hA
        set total := (A.take 8).foldl (fun a v => wrap (a + v)) 0 with htotal
        set idle := wrap (A.getD 3 0 + A.getD 4 0) with hidle
        set prev1 := prev.set c (total, idle) with hprev1
        set B := skip_past pv.2 '\n' with hB
        have hlen1 : (c + 1) + n ≤ prev1.length := by
          rw [hprev1, List.length_set]; omega
        obtain ⟨ih1, ih2⟩ := ih (c + 1) B prev1 hlen1
        have hset_self : prev1.getD c (0, 0) = (total, idle) :=
          getD_set_self hc _ _
        have hset_ne : ∀ j, j ≠ c → prev1.getD j (0, 0) = prev.getD j (0, 0) :=
          fun j hj => getD_set_ne (fun h => hj h.symm) _ _
        have htot_spec : total = specTotal A := code_total_eq_spec A
        constructor
        · rw [List.length_cons, List.range_succ_eq_map, List.map_cons,
            List.map_map, ih1]
          congr 1
          · rw [Nat.add_zero, List.getD_cons_zero]
            exact coreUtil_code_eq_spec (prev.getD c (0, 0)) A
          · refine List.map_congr_left ?_
            intro m hm
            simp only [Function.comp_apply, List.getD_cons_succ]
            rw [hset_ne (c + 1 + m) (by omega),
              show c + (m + 1) = c + 1 + m from by omega]
        · intro ix
          rw [ih2 ix]
          by_cases hix : ix = c
          · subst hix
            rw [if_neg (by omega), hset_self,
              if_pos ⟨le_refl ix, by simp only [List.length_cons]; omega⟩]
            simp only [Nat.sub_self, List.getD_cons_zero]
            rw [htot_spec, hidle]
            rfl
          · by_cases hin : c + 1 ≤ ix ∧ ix < c + 1 + (cpu_tokens n B).length
            · rw [if_pos hin,
                if_pos ⟨by omega, by simp only [List.length_cons]; omega⟩]
              have : ix - c = (ix - (c + 1)) + 1 := by omega
              rw [this, List.getD_cons_succ]
            · rw [if_neg hin, hset_ne ix hix,
                if_neg (by simp only [List.length_cons]; omega)]

/-- The value lists of the cores successfully parsed from the buffer: the
first line is skipped, then each `cpuN ` line yields its (up to) ten
fields. -/
def parsed_core_vals (cores : Nat) (b : List Char) : List (List Nat) :=
  cpu_tokens cores (skip_past b '\n')

theorem getD_map_range (f : Nat → ℚ) (k m : Nat) (h : m < k) :
    ((List.range k).map f).getD m 0 = f m := by
  rw [List.getD_eq_getElem _ _ (by simpa using h)]
  simp

theorem getD_replicate_zero (n m : Nat) :
    (List.replicate n (0 : ℚ)).getD m 0 = 0 := by
  rw [List.getD_eq_getElem?_getD, List.getElem?_replicate]
  split <;> rfl

/-- C3 — on each fast tick with a successful `/proc/stat` read, for every
core `c < num_cpu_cores` successfully parsed, the recorded per-core
utilisation equals `100 × (d_total − d_idle) / d_total` clamped to
[0, 100] when `d_total > 0` and 0 otherwise, where `total` is the sum of
the first 8 fields of the `cpuN` line, `idle_sum = idle + iowait`, and the
deltas are taken (in `uint64_t` arithmetic) against the stored previous
values, which are then updated; `cpu_aggregate` is the mean over the cores
actually parsed, and per-core slots beyond the parsed count are 0. -/
theorem read_cpu_correct (cores : Nat) (b : List Char)
    (prev : List (Nat × Nat)) (hcores : cores ≤ 16)
    (hprev : cores ≤ prev.length) :
    (∀ m, m < (parsed_core_vals cores b).length →
      (read_cpu cores (some b) prev).1.getD m 0 =
        specCoreUtil (prev.getD m (0, 0))
          ((parsed_core_vals cores b).getD m [])) ∧
    (∀ m, m < (parsed_core_vals cores b).length →
      (read_cpu cores (some b) prev).2.2.getD m (0, 0) =
        (specTotal ((parsed_core_vals cores b).getD m []),
         specIdleSum ((parsed_core_vals cores b).getD m []))) ∧
    (∀ m, (parsed_core_vals cores b).length ≤ m → m < 16 →
      (read_cpu cores (some b) prev).1.getD m 0 = 0) ∧
    (read_cpu cores (some b) prev).1.length = 16 ∧
    (∀ m, (parsed_core_vals cores b).length ≤ m →
      (read_cpu cores (some b) prev).2.2.getD m (0, 0) =
        prev.getD m (0, 0)) ∧
    (read_cpu cores (some b) prev).2.1 =
      (if 0 < (parsed_core_vals cores b).length then
        ((List.range (parsed_core_vals cores b).length).map
          (fun m => specCoreUtil (prev.getD m (0, 0))
            ((parsed_core_vals cores b).getD m []))).foldl (· + ·) 0 /
          ((parsed_core_vals cores b).length : ℚ)
      else 0) ∧
    (parsed_core_vals cores b).length ≤ cores := by
  obtain ⟨h1, h2⟩ := read_cpu_go_spec cores 0 (skip_past b '\n') prev
    (by omega)
  simp only [parsed_core_vals]
  have hTle : (cpu_tokens cores (skip_past b '\n')).length ≤ cores :=
    cpu_tokens_length_le cores _
  have hklen : (read_cpu_go cores 0 (skip_past b '\n') prev).1.length =
      (cpu_tokens cores (skip_past b '\n')).length := by
    rw [h1, List.length_map, List.length_range]
  have h1' : (read_cpu_go cores 0 (skip_past b '\n') prev).1 =
      (List.range (cpu_tokens cores (skip_past b '\n')).length).map
        (fun m => specCoreUtil (prev.getD m (0, 0))
          ((cpu_tokens cores (skip_past b '\n')).getD m [])) := by
    rw [h1]
    refine List.map_congr_left (fun m _ => ?_)
    simp only [Nat.zero_add]
  refine ⟨?_, ?_, ?_, ?_, ?_, ?_, hTle⟩
  · intro m hm
    show ((read_cpu_go cores 0 (skip_past b '\n') prev).1 ++
      List.replicate
        (16 - (read_cpu_go cores 0 (skip_past b '\n') prev).1.length)
        (0 : ℚ)).getD m 0 = _
    rw [List.getD_append _ _ _ _ (by omega), h1', getD_map_range _ _ _ hm]
  · intro m hm
    show (read_cpu_go cores 0 (skip_past b '\n') prev).2.getD m (0, 0) = _
    rw [h2 m, if_pos ⟨Nat.zero_le m, by simpa using hm⟩]
    simp only [Nat.sub_zero]
  · intro m hm hm16
    show ((read_cpu_go cores 0 (skip_past b '\n') prev).1 ++
      List.replicate
        (16 - (read_cpu_go cores 0 (skip_past b '\n') prev).1.length)
        (0 : ℚ)).getD m 0 = 0
    rw [List.getD_append_right _ _ _ _ (by omega), getD_replicate_zero]
  · show ((read_cpu_go cores 0 (skip_past b '\n') prev).1 ++
      List.replicate
        (16 - (read_cpu_go cores 0 (skip_past b '\n') prev).1.length)
        (0 : ℚ)).length = 16
    rw [List.length_append, List.length_replicate]
    omega
  · intro m hm
    show (read_cpu_go cores 0 (skip_past b '\n') prev).2.getD m (0, 0) = _
    rw [h2 m, if_neg (by simp only [Nat.zero_add]; omega)]
  · show (if 0 < (read_cpu_go cores 0 (skip_past b '\n') prev).1.length then
        (read_cpu_go cores 0 (skip_past b '\n') prev).1.foldl (· + ·) 0 /
          ((read_cpu_go cores 0 (skip_past b '\n') prev).1.length : ℚ)
      else 0) = _
    rw [hklen, h1']

/-- A concrete two-core `/proc/stat` buffer. -/
def procStatSample : List Char :=
  "cpu  5 5 5 5 5 5 5 5 0 0\ncpu0 4 0 0 1 1 0 0 0 0 0\ncpu1 8 0 0 2 0 0 0 0 0 0\n".data

/-- Witness for `read_cpu_correct`: on `procStatSample` with zeroed
previous jiffies, core 0's recorded utilisation is the spec formula on its
parsed fields, and the stored previous jiffies become `(6, 2)` (total
`4+1+1 = 6`, `idle_sum = 1+1 = 2`). -/
theorem read_cpu_correct_witness :
    (read_cpu 2 (some procStatSample) [(0, 0), (0, 0)]).1.getD 0 0 =
      specCoreUtil (([(0, 0), (0, 0)] : List (Nat × Nat)).getD 0 (0, 0))
        ((parsed_core_vals 2 procStatSample).getD 0 []) ∧
    (read_cpu 2 (some procStatSample) [(0, 0), (0, 0)]).2.2.getD 0 (0, 0) =
      (6, 2) := by
  have h := read_cpu_correct 2 procStatSample [(0, 0), (0, 0)]
    (by decide) (by decide)
  refine ⟨h.1 0 (by decide), (h.2.1 0 (by decide)).trans (by decide)⟩

end Fastnvmetrics
